import Mathlib

/-!
Verification development for the `wordclouds` word-cloud layout library
(`wordcloud.go`). The source is shallowly embedded: Go `float64` values are
modelled as exact rationals (`ℚ`), Go `int` as `ℤ` (canvas dimensions, which
are non-negative, as `ℕ`), and the external collaborators (font loading, text
measurement and rendering from `gg`, the process random source, the float
trigonometry of the circle generator) as oracle functions supplied in an
environment.  Fallible operations (Go `panic`) are modelled with `Option`.

The repository files defining `Box`, the spatial hash map, and the circle
generator are not part of `wordcloud.go`; those are modelled from the spec
(each such definition carries a doc comment starting `Modelled from the
spec:`).  Everything else is translated directly from `wordcloud.go`.
-/

namespace Wordclouds

/-- An RGBA color with four 8-bit-ish channels, standing for Go's
`color.RGBA`.  Channel arithmetic never matters here, only equality. -/
structure RGBA where
  r : ℕ
  g : ℕ
  b : ℕ
  a : ℕ
deriving DecidableEq, Repr

/-- The hard-coded comparison color of `getPreciseBoundingBoxes`
(`defColor := color.RGBA{R: 0xff, G: 0xff, B: 0xff, A: 0xff}`). -/
def defColor : RGBA := ⟨0xff, 0xff, 0xff, 0xff⟩

/-- A rendered canvas, read through `dc.Image().At`: a total pixel function. -/
def Image : Type := ℤ → ℤ → RGBA

/-- Modelled from the spec: the `Box` type of the repository (not part of
`wordcloud.go`): axis-aligned rectangle with `Top`, `Left`, `Right`, `Bottom`
pixel coordinates.  The field order matches the positional literals used in
`wordcloud.go` (`Box{top, left, right, bottom}` against the assignments
`box.Top = ...`, `box.Left = ...`, `box.Right = ...`, `box.Bottom = ...`). -/
structure Box where
  Top : ℚ
  Left : ℚ
  Right : ℚ
  Bottom : ℚ
deriving DecidableEq, Repr

/-- Modelled from the spec: `Box.overlaps` (not part of `wordcloud.go`) —
strict interval intersection in both axes; touching edges do not collide. -/
def Box.overlaps (a b : Box) : Bool :=
  decide (a.Left < b.Right) && decide (b.Left < a.Right) &&
  decide (a.Bottom < b.Top) && decide (b.Bottom < a.Top)

/-- Modelled from the spec: `Box.fits(canvasWidth, canvasHeight)` (not part of
`wordcloud.go`) — the rectangle lies inside the canvas.  The spec leaves the
exact-edge convention open; we use the inclusive convention. -/
def Box.fits (a : Box) (width height : ℚ) : Bool :=
  decide (0 ≤ a.Left) && decide (a.Right ≤ width) &&
  decide (0 ≤ a.Bottom) && decide (a.Top ≤ height)

/-- Modelled from the spec: the spatial hash map (not part of `wordcloud.go`),
observationally: it stores the inserted boxes (grid bucketing is a lookup
optimisation) and `TestCollision` reports whether the query box geometrically
overlaps any inserted box or mask.  `Add` is list append. -/
def TestCollision (grid : List Box) (q : Box) : Bool :=
  grid.any (fun b => q.overlaps b)

/-- A candidate point on a circle (the repository's `point` type). -/
structure point where
  x : ℚ
  y : ℚ
deriving DecidableEq, Repr

/-- Result sent from a placement worker (`res` in `wordcloud.go`). -/
structure res where
  radius : ℚ
  x : ℚ
  y : ℚ
  failed : Bool
deriving DecidableEq, Repr

/-- Modelled from the spec: a circle — center, radius, and a fixed ordered
sequence of `nbPoints` points (not part of `wordcloud.go`).  The float
cosine/sine of the generator are abstracted by a `trig` oracle mapping the
point index `i` and the point count `n` to `(cos θ_i, sin θ_i)`. -/
structure circle where
  cx : ℚ
  cy : ℚ
  radius : ℚ
  posList : List point
deriving Repr

/-- Modelled from the spec: the circle generator `newCircle(cx, cy, r, n)` —
`point_i = center + r·(cos θ_i, sin θ_i)` for `n` angles. -/
def newCircle (trig : ℕ → ℕ → ℚ × ℚ) (cx cy r : ℚ) (nbPoints : ℕ) : circle :=
  { cx := cx, cy := cy, radius := r
    posList := (List.range nbPoints).map
      (fun i => ⟨cx + r * (trig i nbPoints).1, cy + r * (trig i nbPoints).2⟩) }

/-- The ordered candidate positions of a circle (`circle.positions()`). -/
def circle.positions (c : circle) : List point := c.posList

/-- Number of iterations of the radius loop of `NewWordcloud`: the count of
`k` with `(1 + 5k)² < w² + h²`, i.e. of radii `1 + 5k` strictly below
`maxRadius = sqrt(w*w + h*h)` (the float loop `for radius < maxRadius`
read with exact real arithmetic). -/
def radiiCount (w h : ℕ) : ℕ :=
  (Nat.sqrt (w * w + h * h - 1) + 4) / 5

/-- The precomputed ascending radius sequence of `NewWordcloud`:
start `1.0`, step `5.0`, strictly below `maxRadius`. -/
def radiiList (w h : ℕ) : List ℚ :=
  (List.range (radiiCount w h)).map (fun k : ℕ => 1 + 5 * (k : ℚ))

/-- The per-radius circle cache built by `NewWordcloud`
(`circles[radius] = newCircle(float64(opts.Width/2), float64(opts.Height/2),
radius, 512)`); the Go float-keyed map is modelled as an association list
keyed by the radius.  Note `opts.Width/2` is Go integer division. -/
def circlesList (trig : ℕ → ℕ → ℚ × ℚ) (w h : ℕ) : List (ℚ × circle) :=
  (radiiList w h).map (fun r => (r, newCircle trig ((w / 2 : ℕ) : ℚ) ((h / 2 : ℕ) : ℚ) r 512))

/-! ### Precise bounding boxes (`getPreciseBoundingBoxes`) -/

/-- Go's `int(f)` conversion from `float64`: truncation toward zero. -/
def goTrunc (q : ℚ) : ℤ :=
  if q < 0 then ⌈q⌉ else ⌊q⌋

/-- The integer loop `for v := start; v < stop; v = v + 5`, as the list of
visited values. -/
def intStep (start stop : ℤ) : List ℤ :=
  (List.range (((stop - start).toNat + 4) / 5)).map (fun k : ℕ => start + 5 * (k : ℤ))

/-- The sampling grid of `getPreciseBoundingBoxes` over a box `b`: outer loop
`i` from `int(math.Floor(b.Left))` below `int(b.Right)`, inner loop `j` from
`int(b.Bottom)` below `int(b.Top)`, both with stride 5. -/
def samplePoints (b : Box) : List (ℤ × ℤ) :=
  (intStep ⌊b.Left⌋ (goTrunc b.Right)).flatMap
    (fun i => (intStep (goTrunc b.Bottom) (goTrunc b.Top)).map (fun j => (i, j)))

/-- The small occupied box recorded for a sampled pixel `(i, j)`:
`Box{float64(j+step) + 5, float64(i) - 5, float64(i+step) + 5, float64(j) - 5}`
with `step = 5`. -/
def pixelBox (i j : ℤ) : Box :=
  ⟨((j + 5 : ℤ) : ℚ) + 5, (i : ℚ) - 5, ((i + 5 : ℤ) : ℚ) + 5, (j : ℚ) - 5⟩

/-- `getPreciseBoundingBoxes`: sample the rendered surface at stride 5 inside
the accepted box and record a padded small box for every sampled pixel whose
color differs from the hard-coded `defColor` (opaque white). -/
def getPreciseBoundingBoxes (img : Image) (b : Box) : List Box :=
  (samplePoints b).filterMap
    (fun ij => if img ij.1 ij.2 ≠ defColor then some (pixelBox ij.1 ij.2) else none)

/-! ### Configuration, environment and word-cloud state -/

/-- A word with its count (`wordCount` in `wordcloud.go`). -/
structure wordCount where
  word : String
  count : ℤ
deriving DecidableEq, Repr

/-- The configuration record (`Options` in `wordcloud.go`).  Canvas
dimensions are the non-negative `gg.NewContext` arguments. -/
structure Options where
  FontMaxSize : ℤ
  FontMinSize : ℤ
  RandomPlacement : Bool
  FontFile : String
  Colors : List RGBA
  BackgroundColor : RGBA
  Width : ℕ
  Height : ℕ
  Mask : List Box
  Debug : Bool

/-- `defaultOptions` from `wordcloud.go` (`color.RGBA{}` is the zero color,
the default background is opaque white). -/
def defaultOptions : Options :=
  { FontMaxSize := 500
    FontMinSize := 10
    RandomPlacement := false
    FontFile := ""
    Colors := [⟨0, 0, 0, 0⟩]
    BackgroundColor := ⟨0xff, 0xff, 0xff, 0xff⟩
    Width := 2048
    Height := 2048
    Mask := []
    Debug := false }

/-- An opaque handle for a loaded `font.Face`. -/
structure Face where
  id : ℕ
deriving DecidableEq, Repr

/-- Modelled from the spec: the external collaborators of the engine, given
as oracle functions.
* `loadFontFace` — `gg.LoadFontFace(file, size)`; `none` models the error
  that `setFont` turns into a panic;
* `measureString` — `dc.MeasureString` under the current font face;
* `drawStringAnchored` — the pixel effect of `dc.DrawStringAnchored`;
* `strokeRect` — the pixel effect of a debug `DrawRectangle` + `Stroke`;
* `nextPosF` — the position search `w.nextPos(width, height)` as observed by
  `Place`; its concurrent aggregation logic is modelled separately
  (`aggregate`, `testRadius`, `nextRandomGo`), since the arrival order of
  worker results is scheduler-dependent;
* `randStream` — the process-wide `math/rand` draws;
* `trig` — the float cosine/sine pairs of the circle generator. -/
structure Env where
  loadFontFace : String → ℚ → Option Face
  measureString : Face → String → ℚ × ℚ
  drawStringAnchored : Image → Face → RGBA → String → ℚ → ℚ → Image
  strokeRect : Image → Box → Image
  nextPosF : List Box → ℚ → ℚ → ℚ × ℚ × Bool
  randStream : ℕ → ℕ
  trig : ℕ → ℕ → ℚ × ℚ

/-- The `Wordcloud` state (`wordcloud.go` struct).  The `gg` drawing context
is split into its observable parts (`img`, `curFont`, `curColor`); the unused
fields `wordList`, `words2D`, `overlapCount` and `availableColors` are
omitted.  `rngIdx` counts the draws taken from the random stream. -/
structure Wordcloud where
  sortedWordList : List wordCount
  grid : List Box
  img : Image
  fonts : List (ℚ × Face)
  curFont : Face
  curColor : RGBA
  rngIdx : ℕ
  randomPlacement : Bool
  width : ℚ
  height : ℚ
  opts : Options
  circles : List (ℚ × circle)
  radii : List ℚ

/-- Trimming of `strings.Trim(word, " ")`: remove leading and trailing
space characters. -/
def trimSpaces (s : String) : String :=
  String.mk (((s.data.dropWhile (· == ' ')).reverse.dropWhile (· == ' ')).reverse)

/-- Insertion step of the descending sort by count. -/
def insertDesc (x : wordCount) : List wordCount → List wordCount
  | [] => [x]
  | y :: ys => if y.count < x.count then x :: y :: ys else y :: insertDesc x ys

/-- The descending sort of the word list (`sort.Slice` with
`count i > count j`; the Go sort is unstable, so ties are resolved
arbitrarily — we pick a concrete deterministic order). -/
def sortDesc (l : List wordCount) : List wordCount :=
  l.foldr insertDesc []

/-- `NewWordcloud`: trim and sort the frequency list, clear the canvas with
the background color, seed the grid with the masks (stroking their outline
in debug mode), and precompute the radius sequence and circle cache. -/
def NewWordcloud (env : Env) (wordList : List (String × ℤ)) (opts : Options) : Wordcloud :=
  let sorted := sortDesc (wordList.map (fun wc => ⟨trimSpaces wc.1, wc.2⟩))
  let img0 : Image := fun _ _ => opts.BackgroundColor
  let img1 := if opts.Debug then opts.Mask.foldl (fun im b => env.strokeRect im b) img0 else img0
  { sortedWordList := sorted
    grid := opts.Mask
    img := img1
    fonts := []
    curFont := ⟨0⟩
    curColor := ⟨0, 0, 0, 0xff⟩
    rngIdx := 0
    randomPlacement := opts.RandomPlacement
    width := (opts.Width : ℚ)
    height := (opts.Height : ℚ)
    opts := opts
    circles := circlesList env.trig opts.Width opts.Height
    radii := radiiList opts.Width opts.Height }

/-- `setFont(size)`: look the size up in the font cache; on a miss load the
face from the configured font file — a load error panics (`none`) — and cache
it; finally make it the context's current face. -/
def setFont (env : Env) (w : Wordcloud) (size : ℚ) : Option Wordcloud :=
  match w.fonts.lookup size with
  | some f => some { w with curFont := f }
  | none =>
    match env.loadFontFace w.opts.FontFile size with
    | none => none
    | some f => some { w with fonts := (size, f) :: w.fonts, curFont := f }

/-- The font size computed by `Place`:
`size := FontMaxSize * (count / sortedWordList[0].count)`, raised to
`FontMinSize` when below it. -/
def sizeForCount (opts : Options) (count maxCount : ℤ) : ℚ :=
  let size := (opts.FontMaxSize : ℚ) * ((count : ℚ) / (maxCount : ℚ))
  if size < (opts.FontMinSize : ℚ) then (opts.FontMinSize : ℚ) else size

/-- Fold of the debug outline strokes over a list of boxes. -/
def strokeAll (env : Env) (img : Image) (bs : List Box) : Image :=
  bs.foldl (fun im b => env.strokeRect im b) img

/-- The occupancy registration at the end of `Place`: boxes taller than 40
register the precise bounding boxes (stroked in debug mode), others register
the full rectangle. -/
def registerBoxes (env : Env) (w : Wordcloud) (box : Box) (height : ℚ) : Wordcloud :=
  if height > 40 then
    let pbs := getPreciseBoundingBoxes w.img box
    { w with grid := w.grid ++ pbs
             img := if w.opts.Debug then strokeAll env w.img pbs else w.img }
  else
    { w with grid := w.grid ++ [box] }

/-- `Place(wc)`: pick a random color, compute the font size from the count
relative to the maximum count, set the font (possible panic), measure the
word, pad the extent by 5, search a position, and on success draw the word
and register its occupancy.  `none` models a panic (font load failure, or the
`rand.Intn(0)` / index-out-of-range panics on degenerate inputs). -/
def Place (env : Env) (w : Wordcloud) (wc : wordCount) : Option (Wordcloud × Bool) :=
  match w.opts.Colors, w.sortedWordList with
  | [], _ => none
  | _, [] => none
  | c0 :: cs, first :: _ =>
    let c := (c0 :: cs).getD (env.randStream w.rngIdx % (c0 :: cs).length) c0
    let w1 := { w with curColor := c, rngIdx := w.rngIdx + 1 }
    let size := sizeForCount w.opts wc.count first.count
    match setFont env w1 size with
    | none => none
    | some w2 =>
      let m := env.measureString w2.curFont wc.word
      let width := m.1 + 5
      let height := m.2 + 5
      let r := env.nextPosF w2.grid width height
      if r.2.2 = false then some (w2, false)
      else
        let x := r.1
        let y := r.2.1
        let w3 := { w2 with img := env.drawStringAnchored w2.img w2.curFont w2.curColor wc.word x y }
        let box : Box := ⟨y + height / 2 + (3 / 10 : ℚ) * height, x - width / 2,
                          x + width / 2, max (y - height / 2) 0⟩
        some (registerBoxes env w3 box height, true)

/-- The loop body of `Draw`: iterate the sorted words, tracking consecutive
misses; a success resets the counter, a failure increments it, and once it
exceeds 10 the canvas is returned as-is. -/
def DrawGo (env : Env) : List wordCount → ℕ → Wordcloud → Option Image
  | [], _, w => some w.img
  | wc :: rest, misses, w =>
    match Place env w wc with
    | none => none
    | some (w2, success) =>
      if success then DrawGo env rest 0 w2
      else if misses + 1 > 10 then some w2.img
      else DrawGo env rest (misses + 1) w2

/-- `Draw()`: run the loop over the sorted word list. -/
def Draw (env : Env) (w : Wordcloud) : Option Image :=
  DrawGo env w.sortedWordList 0 w

/-- A chain of consecutive failed placements: fold `Place` over the words,
requiring every call to return `success = false`, and give the final state. -/
def placeAllFail (env : Env) : Wordcloud → List wordCount → Option Wordcloud
  | w, [] => some w
  | w, wc :: ws =>
    match Place env w wc with
    | some (w2, false) => placeAllFail env w2 ws
    | _ => none

/-! ### The position searches -/

/-- The candidate box centered at a point (`box.Top = y + height/2` etc.,
shared by `testRadius` and `nextRandom`). -/
def candidateBox (x y width height : ℚ) : Box :=
  ⟨y + height / 2, x - width / 2, x + width / 2, y - height / 2⟩

/-- `testRadius`: scan the ring's points in order; the Go loop carries the
last examined coordinates into the failure result. -/
def testRadiusGo (grid : List Box) (cw ch radius width height : ℚ) :
    List point → ℚ → ℚ → res
  | [], x, y => ⟨radius, x, y, true⟩
  | p :: ps, _, _ =>
    let box := candidateBox p.x p.y width height
    if box.fits cw ch = false then testRadiusGo grid cw ch radius width height ps p.x p.y
    else if TestCollision grid box then testRadiusGo grid cw ch radius width height ps p.x p.y
    else ⟨radius, p.x, p.y, false⟩

/-- `testRadius(radius, points, width, height)` on a cloud with grid `grid`
and canvas `cw × ch`: first fitting collision-free point of the ring, or a
failed result for that radius. -/
def testRadius (grid : List Box) (cw ch radius : ℚ) (points : List point)
    (width height : ℚ) : res :=
  testRadiusGo grid cw ch radius width height points 0 0

/-- The acceptance test applied to each candidate point of a ring: the
centered box fits the canvas and does not collide with the grid. -/
def checkPoint (grid : List Box) (cw ch width height : ℚ) (p : point) : Bool :=
  (candidateBox p.x p.y width height).fits cw ch &&
  !TestCollision grid (candidateBox p.x p.y width height)

/-- The acceptance test of one random attempt `i` (the box centered at the
drawn integer position fits and is collision-free). -/
def randomOk (grid : List Box) (W H : ℕ) (width height : ℚ)
    (rndX rndY : ℕ → ℕ) (i : ℕ) : Bool :=
  let box := candidateBox ((rndX i : ℕ) : ℚ) ((rndY i : ℕ) : ℚ) width height
  box.fits (W : ℚ) (H : ℚ) && !TestCollision grid box

/-- The retry loop of `nextRandom`: the Go loop
`for searching && tries < 5000000`, written with the remaining attempt
budget `fuel = 5000000 - tries` as the (structural) recursion argument;
attempt `tries` draws `(rand.Intn(W), rand.Intn(H))`, modelled by the
streams `rndX`, `rndY`; the Go named returns carry the last drawn
coordinates into the failure result. -/
def nextRandomGo (grid : List Box) (W H : ℕ) (width height : ℚ)
    (rndX rndY : ℕ → ℕ) : ℕ → ℕ → ℚ → ℚ → ℚ × ℚ × Bool
  | 0, _, x, y => (x, y, false)
  | fuel + 1, tries, _, _ =>
    let x2 : ℚ := ((rndX tries : ℕ) : ℚ)
    let y2 : ℚ := ((rndY tries : ℕ) : ℚ)
    let box := candidateBox x2 y2 width height
    if box.fits (W : ℚ) (H : ℚ) = false then
      nextRandomGo grid W H width height rndX rndY fuel (tries + 1) x2 y2
    else if TestCollision grid box then
      nextRandomGo grid W H width height rndX rndY fuel (tries + 1) x2 y2
    else (x2, y2, true)

/-- `nextRandom(width, height)`: run the retry loop with the full attempt
budget of 5,000,000. -/
def nextRandom (grid : List Box) (W H : ℕ) (width height : ℚ)
    (rndX rndY : ℕ → ℕ) : ℚ × ℚ × Bool :=
  nextRandomGo grid W H width height rndX rndY 5000000 0 0 0

/-! ### The result aggregation of `nextPos` -/

/-- The empty `results`/`done` maps of `nextPos` (a radius is `done` iff a
result is recorded for it, the two maps being updated together). -/
def emptyResults : ℚ → Option res := fun _ => none

/-- Recording one worker result: `results[d.radius] = d; done[d.radius] = true`. -/
def updateRes (f : ℚ → Option res) (d : res) : ℚ → Option res :=
  fun r => if r = d.radius then some d else f r

/-- Recording a sequence of worker results in arrival order. -/
def recordAll (f : ℚ → Option res) (l : List res) : ℚ → Option res :=
  l.foldl updateRes f

/-- Outcome of one ascending scan of the radius sequence. -/
inductive ScanOut where
  | waiting
  | success (d : res)
  | allFailed
deriving DecidableEq, Repr

/-- The ascending scan of `nextPos` over the radius sequence after a result
arrives: stop and wait at the first unresolved radius; return the first
recorded success otherwise; report exhaustion when every radius is recorded
as failed. -/
def scanRadii (f : ℚ → Option res) : List ℚ → ScanOut
  | [] => .allFailed
  | r :: rs =>
    match f r with
    | none => .waiting
    | some d => if d.failed then scanRadii f rs else .success d

/-- The aggregation loop of `nextPos` over the stream of worker results
received on `aggCh`: record each result, rescan; a success returns its
coordinates, exhaustion returns the initial `(width, height)` coordinates
with `space = false`.  (In the program the stream never ends before a
decision; the `[]` case is unreachable there.) -/
def aggregate (width height : ℚ) (radii : List ℚ) :
    (ℚ → Option res) → List res → ℚ × ℚ × Bool
  | _, [] => (width, height, false)
  | f, d :: ds =>
    match scanRadii (updateRes f d) radii with
    | .success d2 => (d2.x, d2.y, true)
    | .allFailed => (width, height, false)
    | .waiting => aggregate width height radii (updateRes f d) ds

/-- `nextPos(width, height)`: dispatch on `randomPlacement`; the radial
branch is the aggregation over the worker results (whose arrival order is
the scheduler-dependent `arrival` stream). -/
def nextPos (randomPlacement : Bool) (grid : List Box) (W H : ℕ)
    (width height : ℚ) (rndX rndY : ℕ → ℕ) (radii : List ℚ)
    (arrival : List res) : ℚ × ℚ × Bool :=
  if randomPlacement then nextRandom grid W H width height rndX rndY
  else aggregate (W : ℚ) (H : ℚ) radii emptyResults arrival

/-- The font size as the claim's words read literally: linear interpolation
between the configured minimum and maximum font sizes by `count / maxCount`,
clamped to the minimum.  Second definition written from the spec sentence,
for comparison with `sizeForCount` (which is translated from the source). -/
def sizeByLerp (opts : Options) (count maxCount : ℤ) : ℚ :=
  let size := (opts.FontMinSize : ℚ) +
    ((opts.FontMaxSize : ℚ) - (opts.FontMinSize : ℚ)) * ((count : ℚ) / (maxCount : ℚ))
  if size < (opts.FontMinSize : ℚ) then (opts.FontMinSize : ℚ) else size

/-- A concrete environment for witnesses: fonts load, measurement is 10×10,
rendering is a no-op, and the position search never finds space. -/
def envNoSpace : Env :=
  { loadFontFace := fun _ _ => some ⟨1⟩
    measureString := fun _ _ => (10, 10)
    drawStringAnchored := fun img _ _ _ _ _ => img
    strokeRect := fun img _ => img
    nextPosF := fun _ _ _ => (0, 0, false)
    randStream := fun _ => 0
    trig := fun _ _ => (1, 0) }

/-- Like `envNoSpace` but the position search returns `(5, 5)` with space. -/
def envSpace : Env :=
  { envNoSpace with nextPosF := fun _ _ _ => (5, 5, true) }

/-- Like `envNoSpace` but every font load fails. -/
def envNoFont : Env :=
  { envNoSpace with loadFontFace := fun _ _ => none }

/-- A concrete word-cloud state over a 100×100 canvas with default options,
an empty grid and an all-background canvas, for witnesses. -/
def cloudW (words : List wordCount) : Wordcloud :=
  { sortedWordList := words
    grid := []
    img := fun _ _ => defColor
    fonts := []
    curFont := ⟨0⟩
    curColor := ⟨0, 0, 0, 0xff⟩
    rngIdx := 0
    randomPlacement := false
    width := 100
    height := 100
    opts := { defaultOptions with Width := 100, Height := 100 }
    circles := []
    radii := [] }

/-- Eleven identical words, for the consecutive-miss witness. -/
def words11 : List wordCount :=
  [⟨"a", 1⟩, ⟨"a", 1⟩, ⟨"a", 1⟩, ⟨"a", 1⟩, ⟨"a", 1⟩, ⟨"a", 1⟩,
   ⟨"a", 1⟩, ⟨"a", 1⟩, ⟨"a", 1⟩, ⟨"a", 1⟩, ⟨"a", 1⟩]

/-! ## Helper lemmas -/

lemma testRadiusGo_found (grid : List Box) (cw ch radius width height : ℚ) :
    ∀ (points : List point) (x y : ℚ) (p : point),
      points.find? (checkPoint grid cw ch width height) = some p →
      testRadiusGo grid cw ch radius width height points x y = ⟨radius, p.x, p.y, false⟩ := by
  intro points
  induction points with
  | nil => intro x y p h; simp at h
  | cons q qs ih =>
    intro x y p h
    by_cases hfit : (candidateBox q.x q.y width height).fits cw ch = true
    · by_cases hcol : TestCollision grid (candidateBox q.x q.y width height) = true
      · have hchk : ¬ checkPoint grid cw ch width height q = true := by
          simp [checkPoint, hcol]
        rw [List.find?_cons_of_neg _ hchk] at h
        simpa [testRadiusGo, hfit, hcol] using ih q.x q.y p h
      · have hchk : checkPoint grid cw ch width height q = true := by
          simp [checkPoint, hfit, hcol]
        rw [List.find?_cons_of_pos _ hchk] at h
        cases h
        simp [testRadiusGo, hfit, hcol]
    · have hchk : ¬ checkPoint grid cw ch width height q = true := by
        simp [checkPoint, hfit]
      rw [List.find?_cons_of_neg _ hchk] at h
      simpa [testRadiusGo, hfit] using ih q.x q.y p h

lemma testRadiusGo_exhausted (grid : List Box) (cw ch radius width height : ℚ) :
    ∀ (points : List point) (x y : ℚ),
      points.find? (checkPoint grid cw ch width height) = none →
      (testRadiusGo grid cw ch radius width height points x y).failed = true ∧
      (testRadiusGo grid cw ch radius width height points x y).radius = radius := by
  intro points
  induction points with
  | nil => intro x y _; simp [testRadiusGo]
  | cons q qs ih =>
    intro x y h
    rw [List.find?_cons] at h
    by_cases hchk : checkPoint grid cw ch width height q = true
    · rw [hchk] at h; simp at h
    · rw [Bool.of_not_eq_true hchk] at h
      rcases Bool.and_eq_false_iff.mp (Bool.not_eq_true _ ▸ hchk :
          ((candidateBox q.x q.y width height).fits cw ch &&
            !TestCollision grid (candidateBox q.x q.y width height)) = false) with hfit | hcol
      · simpa [testRadiusGo, hfit] using ih q.x q.y h
      · have hcol2 : TestCollision grid (candidateBox q.x q.y width height) = true := by
          simpa using hcol
        by_cases hfit : (candidateBox q.x q.y width height).fits cw ch = true
        · simpa [testRadiusGo, hfit, hcol2] using ih q.x q.y h
        · simpa [testRadiusGo, hfit] using ih q.x q.y h

lemma nextRandomGo_hit (grid : List Box) (W H : ℕ) (width height : ℚ)
    (rndX rndY : ℕ → ℕ) (i : ℕ) (hi : i < 5000000)
    (hok : randomOk grid W H width height rndX rndY i = true)
    (hmin : ∀ j, j < i → randomOk grid W H width height rndX rndY j = false) :
    ∀ fuel tries x y, tries + fuel = 5000000 → tries ≤ i →
      nextRandomGo grid W H width height rndX rndY fuel tries x y =
        (((rndX i : ℕ) : ℚ), ((rndY i : ℕ) : ℚ), true) := by
  intro fuel
  induction fuel with
  | zero => intro tries x y hsum hle; omega
  | succ n ih =>
    intro tries x y hsum hle
    rcases eq_or_lt_of_le hle with rfl | hlt
    · unfold randomOk at hok
      rw [Bool.and_eq_true_iff] at hok
      obtain ⟨hfit, h2⟩ := hok
      rw [Bool.not_eq_true'] at h2
      rw [nextRandomGo]
      simp only [hfit, h2]
      simp
    · have hokf := hmin tries hlt
      unfold randomOk at hokf
      rw [Bool.and_eq_false_iff] at hokf
      rw [nextRandomGo]
      rcases hokf with hfit | hcol
      · simp only [hfit]
        rw [if_pos trivial]
        exact ih (tries + 1) _ _ (by omega) (by omega)
      · rw [Bool.not_eq_false'] at hcol
        by_cases hfit : (candidateBox ((rndX tries : ℕ) : ℚ) ((rndY tries : ℕ) : ℚ)
            width height).fits (W : ℚ) (H : ℚ) = false
        · rw [if_pos hfit]
          exact ih (tries + 1) _ _ (by omega) (by omega)
        · rw [if_neg hfit, if_pos hcol]
          exact ih (tries + 1) _ _ (by omega) (by omega)

lemma nextRandomGo_capped (grid : List Box) (W H : ℕ) (width height : ℚ)
    (rndX rndY : ℕ → ℕ)
    (hall : ∀ j, j < 5000000 → randomOk grid W H width height rndX rndY j = false) :
    ∀ fuel tries x y, tries + fuel = 5000000 →
      (nextRandomGo grid W H width height rndX rndY fuel tries x y).2.2 = false := by
  intro fuel
  induction fuel with
  | zero => intro tries x y hsum; rw [nextRandomGo]
  | succ n ih =>
    intro tries x y hsum
    have ht : tries < 5000000 := by omega
    have hokf := hall tries ht
    unfold randomOk at hokf
    rw [Bool.and_eq_false_iff] at hokf
    rw [nextRandomGo]
    rcases hokf with hfit | hcol
    · simp only [hfit]
      rw [if_pos trivial]
      exact ih (tries + 1) _ _ (by omega)
    · rw [Bool.not_eq_false'] at hcol
      by_cases hfit : (candidateBox ((rndX tries : ℕ) : ℚ) ((rndY tries : ℕ) : ℚ)
          width height).fits (W : ℚ) (H : ℚ) = false
      · rw [if_pos hfit]
        exact ih (tries + 1) _ _ (by omega)
      · rw [if_neg hfit, if_pos hcol]
        exact ih (tries + 1) _ _ (by omega)

lemma scanRadii_success_split (f : ℚ → Option res) :
    ∀ (L : List ℚ) (d : res), scanRadii f L = .success d →
      ∃ as r bs, L = as ++ r :: bs ∧ f r = some d ∧ d.failed = false ∧
        ∀ a ∈ as, ∃ da, f a = some da ∧ da.failed = true := by
  intro L
  induction L with
  | nil => intro d h; simp [scanRadii] at h
  | cons r rs ih =>
    intro d h
    rw [scanRadii] at h
    cases hf : f r with
    | none => rw [hf] at h; simp at h
    | some d0 =>
      rw [hf] at h
      replace h : (if d0.failed = true then scanRadii f rs else ScanOut.success d0) =
          ScanOut.success d := h
      by_cases hfl : d0.failed = true
      · rw [if_pos hfl] at h
        obtain ⟨as, r2, bs, hL, hfr, hdf, hall⟩ := ih d h
        refine ⟨r :: as, r2, bs, by rw [hL, List.cons_append], hfr, hdf, ?_⟩
        intro a ha
        rcases List.mem_cons.mp ha with rfl | ha2
        · exact ⟨d0, hf, hfl⟩
        · exact hall a ha2
      · rw [if_neg hfl] at h
        cases h
        exact ⟨[], r, rs, rfl, hf, Bool.eq_false_iff.mpr (fun hx => hfl hx), by simp⟩

lemma scanRadii_success_of (f : ℚ → Option res) (d : res) :
    ∀ (as : List ℚ) (rr : ℚ) (bs : List ℚ),
      (∀ a ∈ as, ∃ da, f a = some da ∧ da.failed = true) →
      f rr = some d → d.failed = false →
      scanRadii f (as ++ rr :: bs) = .success d := by
  intro as
  induction as with
  | nil =>
    intro rr bs _ hf hd
    rw [List.nil_append, scanRadii, hf]
    show (if d.failed = true then scanRadii f bs else ScanOut.success d) = ScanOut.success d
    rw [if_neg (by rw [hd]; exact Bool.false_ne_true)]
  | cons a as ih =>
    intro rr bs hall hf hd
    obtain ⟨da, hfa, hda⟩ := hall a (List.mem_cons_self a as)
    rw [List.cons_append, scanRadii, hfa]
    show (if da.failed = true then scanRadii f (as ++ rr :: bs) else ScanOut.success da) =
      ScanOut.success d
    rw [if_pos hda]
    exact ih rr bs (fun b hb => hall b (List.mem_cons_of_mem a hb)) hf hd

lemma aggregate_success (W H : ℚ) (L : List ℚ) :
    ∀ (s : List res) (f : ℚ → Option res) (x y : ℚ),
      aggregate W H L f s = (x, y, true) →
      ∃ p d ds, s = p ++ d :: ds ∧
        ∃ d2, scanRadii (recordAll f (p ++ [d])) L = .success d2 ∧ d2.x = x ∧ d2.y = y := by
  intro s
  induction s with
  | nil => intro f x y h; simp [aggregate] at h
  | cons d ds ih =>
    intro f x y h
    rw [aggregate] at h
    cases hscan : scanRadii (updateRes f d) L with
    | success d2 =>
      rw [hscan] at h
      replace h : ((d2.x, d2.y, true) : ℚ × ℚ × Bool) = (x, y, true) := h
      rw [Prod.mk.injEq, Prod.mk.injEq] at h
      refine ⟨[], d, ds, rfl, d2, ?_, h.1, h.2.1⟩
      simpa [recordAll] using hscan
    | allFailed =>
      rw [hscan] at h
      replace h : ((W, H, false) : ℚ × ℚ × Bool) = (x, y, true) := h
      rw [Prod.mk.injEq, Prod.mk.injEq] at h
      exact absurd h.2.2 Bool.false_ne_true
    | waiting =>
      rw [hscan] at h
      replace h : aggregate W H L (updateRes f d) ds = (x, y, true) := h
      obtain ⟨p, d3, ds3, hs, d2, hscan2, hx, hy⟩ := ih (updateRes f d) x y h
      refine ⟨d :: p, d3, ds3, by rw [hs, List.cons_append], d2, ?_, hx, hy⟩
      simpa [recordAll] using hscan2

lemma recordAll_radius (l : List res) :
    ∀ (f : ℚ → Option res), (∀ r d, f r = some d → d.radius = r) →
      ∀ r d, recordAll f l r = some d → d.radius = r := by
  induction l with
  | nil => intro f hf r d h; exact hf r d h
  | cons a l ih =>
    intro f hf r d h
    refine ih (updateRes f a) ?_ r d (by simpa [recordAll] using h)
    intro r2 d2 h2
    unfold updateRes at h2
    by_cases hr : r2 = a.radius
    · rw [if_pos hr] at h2; cases h2; exact hr.symm
    · rw [if_neg hr] at h2; exact hf r2 d2 h2

lemma radiiList_pairwise (w h : ℕ) : (radiiList w h).Pairwise (· < ·) := by
  have hmono : ∀ a b : ℕ, a < b → (1 + 5 * (a : ℚ)) < 1 + 5 * (b : ℚ) := by
    intro a b hab
    have hc : (a : ℚ) < (b : ℚ) := by exact_mod_cast hab
    linarith
  unfold radiiList
  exact List.Pairwise.map (fun k : ℕ => 1 + 5 * (k : ℚ)) hmono
    (List.pairwise_lt_range (radiiCount w h))

/-! ## Claims -/

/-- C2: `testRadius` returns the first point of the ring, in generator order,
whose centered rectangle fits the canvas and does not collide with the
spatial index (with `failed = false`, no later point being examined —
`List.find?` is exactly the first match); if no point qualifies it returns a
result with `failed = true` carrying that radius. -/
theorem C2_testRadius_first_hit (grid : List Box) (cw ch radius width height : ℚ)
    (points : List point) :
    (∀ p, points.find? (checkPoint grid cw ch width height) = some p →
      testRadius grid cw ch radius points width height = ⟨radius, p.x, p.y, false⟩) ∧
    (points.find? (checkPoint grid cw ch width height) = none →
      (testRadius grid cw ch radius points width height).failed = true ∧
      (testRadius grid cw ch radius points width height).radius = radius) := by
  constructor
  · intro p h
    exact testRadiusGo_found grid cw ch radius width height points 0 0 p h
  · intro h
    exact testRadiusGo_exhausted grid cw ch radius width height points 0 0 h

/-- Witness for C2 at a concrete ring. -/
theorem C2_witness :
    ([⟨50, 50⟩] : List point).find? (checkPoint [] 100 100 2 2) = some ⟨50, 50⟩ ∧
    testRadius [] 100 100 1 [⟨50, 50⟩] 2 2 = ⟨1, 50, 50, false⟩ := by
  have hfind : ([⟨50, 50⟩] : List point).find? (checkPoint [] 100 100 2 2) =
      some ⟨50, 50⟩ := by
    norm_num [checkPoint, candidateBox, Box.fits, TestCollision, List.find?]
  exact ⟨hfind, (C2_testRadius_first_hit [] 100 100 1 2 2 [⟨50, 50⟩]).1 ⟨50, 50⟩ hfind⟩

/-- C8: in random-placement mode (`nextPos` dispatches to `nextRandom`), the
search draws integer positions from the random streams (bounded by the canvas
dimensions, as `rand.Intn` guarantees), performs at most 5,000,000 attempts,
returns the first fitting collision-free position with `space = true`, and
reports `space = false` when the attempt cap is reached without a hit. -/
theorem C8_nextRandom_bounded_attempts (grid : List Box) (W H : ℕ)
    (width height : ℚ) (rndX rndY : ℕ → ℕ) (radii : List ℚ) (arrival : List res)
    (hx : ∀ i, rndX i < W) (hy : ∀ i, rndY i < H) :
    nextPos true grid W H width height rndX rndY radii arrival =
      nextRandom grid W H width height rndX rndY ∧
    (∀ i, i < 5000000 → randomOk grid W H width height rndX rndY i = true →
      (∀ j, j < i → randomOk grid W H width height rndX rndY j = false) →
      nextPos true grid W H width height rndX rndY radii arrival =
        (((rndX i : ℕ) : ℚ), ((rndY i : ℕ) : ℚ), true)) ∧
    ((∀ j, j < 5000000 → randomOk grid W H width height rndX rndY j = false) →
      (nextPos true grid W H width height rndX rndY radii arrival).2.2 = false) := by
  refine ⟨rfl, ?_, ?_⟩
  · intro i hi hok hmin
    exact nextRandomGo_hit grid W H width height rndX rndY i hi hok hmin 5000000 0 0 0 rfl
      (Nat.zero_le i)
  · intro hall
    exact nextRandomGo_capped grid W H width height rndX rndY hall 5000000 0 0 0 rfl

/-- Witness for C8: the first draw already fits an empty index. -/
theorem C8_witness :
    randomOk [] 10 10 2 2 (fun _ => 5) (fun _ => 5) 0 = true ∧
    nextPos true [] 10 10 2 2 (fun _ => 5) (fun _ => 5) [] [] = (5, 5, true) := by
  have hok : randomOk [] 10 10 2 2 (fun _ => 5) (fun _ => 5) 0 = true := by
    norm_num [randomOk, candidateBox, Box.fits, TestCollision]
  refine ⟨hok, ?_⟩
  have h := (C8_nextRandom_bounded_attempts [] 10 10 2 2 (fun _ => 5) (fun _ => 5) [] []
    (fun _ => by norm_num) (fun _ => by norm_num)).2.1 0 (by norm_num) hok
    (fun j hj => absurd hj (Nat.not_lt_zero j))
  simpa using h

/-- C1: the aggregation of `nextPos` returns a success found at radius `rr`
only when, at that moment of the arrival stream, every radius of the
precomputed sequence smaller than `rr` has already been recorded as failed
(first conjunct: any returned success comes from a received prefix whose
record maps every smaller radius to a failed result — so while a smaller
radius is unresolved, a recorded success is held back); and as soon as every
smaller radius is recorded failed, a recorded success is returned by the
ascending scan (second conjunct). -/
theorem C1_success_only_after_smaller_failed (w h : ℕ) :
    (∀ (stream : List res) (x y : ℚ),
      aggregate (w : ℚ) (h : ℚ) (radiiList w h) emptyResults stream = (x, y, true) →
      ∃ seen rest, stream = seen ++ rest ∧ seen ≠ [] ∧
        ∃ rr, rr ∈ radiiList w h ∧
          recordAll emptyResults seen rr = some ⟨rr, x, y, false⟩ ∧
          ∀ r2 ∈ radiiList w h, r2 < rr →
            ∃ d2, recordAll emptyResults seen r2 = some d2 ∧ d2.failed = true) ∧
    (∀ (f : ℚ → Option res) (as : List ℚ) (rr : ℚ) (bs : List ℚ) (d : res),
      radiiList w h = as ++ rr :: bs →
      (∀ a ∈ as, ∃ da, f a = some da ∧ da.failed = true) →
      f rr = some d → d.failed = false →
      scanRadii f (radiiList w h) = .success d) := by
  constructor
  · intro stream x y hagg
    obtain ⟨p, d, ds, hs, d2, hscan, hx, hy⟩ :=
      aggregate_success (w : ℚ) (h : ℚ) (radiiList w h) stream emptyResults x y hagg
    obtain ⟨as, rr, bs, hL, hfr, hdf, hall⟩ :=
      scanRadii_success_split (recordAll emptyResults (p ++ [d])) (radiiList w h) d2 hscan
    have hrad : d2.radius = rr :=
      recordAll_radius (p ++ [d]) emptyResults (fun r d0 h0 => by simp [emptyResults] at h0)
        rr d2 hfr
    refine ⟨p ++ [d], ds, by rw [hs, List.append_assoc]; rfl, by simp, rr,
      by rw [hL]; exact List.mem_append_right as (List.mem_cons_self rr bs), ?_, ?_⟩
    · rw [hfr]
      congr 1
      cases d2
      simp only [res.mk.injEq]
      exact ⟨by simpa using hrad, by simpa using hx, by simpa using hy, by simpa using hdf⟩
    · intro r2 hr2 hlt
      rw [hL] at hr2
      rcases List.mem_append.mp hr2 with h1 | h2
      · exact hall r2 h1
      · rcases List.mem_cons.mp h2 with rfl | h3
        · exact absurd hlt (lt_irrefl r2)
        · exfalso
          have hpw := radiiList_pairwise w h
          rw [hL] at hpw
          have h4 := (List.pairwise_append.mp hpw).2
          have h5 : rr < r2 := (List.pairwise_cons.mp h4.1).1 r2 h3
          exact absurd hlt (not_lt_of_gt h5)
  · intro f as rr bs d hL hall hf hd
    rw [hL]
    exact scanRadii_success_of f d as rr bs hall hf hd

/-- Witness for C1 at a one-radius sequence with a single arriving success. -/
theorem C1_witness :
    aggregate ((1 : ℕ) : ℚ) ((1 : ℕ) : ℚ) (radiiList 1 1) emptyResults
      [⟨1, 2, 3, false⟩] = (2, 3, true) ∧
    (∃ seen rest, ([⟨1, 2, 3, false⟩] : List res) = seen ++ rest ∧ seen ≠ [] ∧
      ∃ rr, rr ∈ radiiList 1 1 ∧
        recordAll emptyResults seen rr = some ⟨rr, 2, 3, false⟩ ∧
        ∀ r2 ∈ radiiList 1 1, r2 < rr →
          ∃ d2, recordAll emptyResults seen r2 = some d2 ∧ d2.failed = true) := by
  have hr : radiiList 1 1 = [1] := by
    have hc : radiiCount 1 1 = 1 := by norm_num [radiiCount]
    rw [radiiList, hc, List.range_succ]
    norm_num
  have hagg : aggregate ((1 : ℕ) : ℚ) ((1 : ℕ) : ℚ) (radiiList 1 1) emptyResults
      [⟨1, 2, 3, false⟩] = (2, 3, true) := by
    rw [hr]
    norm_num [aggregate, scanRadii, updateRes, emptyResults]
  exact ⟨hagg,
    (C1_success_only_after_smaller_failed 1 1).1 [⟨1, 2, 3, false⟩] 2 3 hagg⟩

lemma radiiCount_lt_iff (w h k : ℕ) :
    k < radiiCount w h ↔ (1 + 5 * k) * (1 + 5 * k) < w * w + h * h := by
  unfold radiiCount
  rcases Nat.eq_zero_or_pos (w * w + h * h) with hM | hM
  · rw [hM]
    simp
  · constructor
    · intro hk
      have h2 : (k + 1) * 5 ≤ Nat.sqrt (w * w + h * h - 1) + 4 :=
        (Nat.le_div_iff_mul_le (by norm_num)).mp hk
      have h3 : 5 * k + 1 ≤ Nat.sqrt (w * w + h * h - 1) := by omega
      have h4 : (5 * k + 1) * (5 * k + 1) ≤ w * w + h * h - 1 := Nat.le_sqrt.mp h3
      have h5 : (1 + 5 * k) * (1 + 5 * k) = (5 * k + 1) * (5 * k + 1) := by ring
      omega
    · intro hk
      have h5 : (1 + 5 * k) * (1 + 5 * k) = (5 * k + 1) * (5 * k + 1) := by ring
      have h4 : (5 * k + 1) * (5 * k + 1) ≤ w * w + h * h - 1 := by omega
      have h3 : 5 * k + 1 ≤ Nat.sqrt (w * w + h * h - 1) := Nat.le_sqrt.mpr h4
      exact (Nat.le_div_iff_mul_le (by norm_num)).mpr (by omega)

lemma radiiList_mem_iff (w h : ℕ) (q : ℚ) :
    q ∈ radiiList w h ↔
      ∃ k : ℕ, q = 1 + 5 * (k : ℚ) ∧ (1 + 5 * k) * (1 + 5 * k) < w * w + h * h := by
  unfold radiiList
  rw [List.mem_map]
  constructor
  · rintro ⟨k, hk, rfl⟩
    exact ⟨k, rfl, (radiiCount_lt_iff w h k).mp (List.mem_range.mp hk)⟩
  · rintro ⟨k, rfl, hk⟩
    exact ⟨k, List.mem_range.mpr ((radiiCount_lt_iff w h k).mpr hk), rfl⟩

lemma lookup_map_pair (g : ℚ → circle) :
    ∀ (L : List ℚ) (r : ℚ), r ∈ L →
      (L.map (fun x => (x, g x))).lookup r = some (g r) := by
  intro L
  induction L with
  | nil => intro r hr; simp at hr
  | cons a as ih =>
    intro r hr
    rcases List.mem_cons.mp hr with rfl | hr2
    · simp [List.lookup]
    · by_cases hra : r = a
      · subst hra; simp [List.lookup]
      · have hba : (r == a) = false := beq_false_of_ne hra
        simp only [List.map_cons, List.lookup, hba]
        exact ih r hr2

/-- C7: the precomputed radius sequence is strictly ascending, starts at 1,
advances in steps of 5, and contains exactly the radii of the form `1 + 5k`
strictly below `maxRadius = sqrt(w² + h²)`; for each such radius the cache
holds exactly one circle, a 512-point circle centered at the code's center
`(float64(w/2), float64(h/2))` (Go integer halving of the dimensions). -/
theorem C7_radii_sequence (w h : ℕ) (trig : ℕ → ℕ → ℚ × ℚ) :
    (radiiList w h).Pairwise (· < ·) ∧
    (1 ≤ w → 1 ≤ h → (radiiList w h).head? = some 1) ∧
    (∀ i : ℕ, ∀ q1 q2 : ℚ, (radiiList w h)[i]? = some q1 →
      (radiiList w h)[i + 1]? = some q2 → q2 = q1 + 5) ∧
    (∀ q : ℚ, q ∈ radiiList w h ↔
      (∃ k : ℕ, q = 1 + 5 * (k : ℚ)) ∧
        (q : ℝ) < Real.sqrt ((w : ℝ) * w + (h : ℝ) * h)) ∧
    (circlesList trig w h).map Prod.fst = radiiList w h ∧
    (∀ r ∈ radiiList w h, (circlesList trig w h).lookup r =
      some (newCircle trig ((w / 2 : ℕ) : ℚ) ((h / 2 : ℕ) : ℚ) r 512)) ∧
    (∀ r c, (r, c) ∈ circlesList trig w h → c.positions.length = 512) := by
  have hsqrtM : (0 : ℝ) ≤ (w : ℝ) * w + (h : ℝ) * h := by positivity
  refine ⟨radiiList_pairwise w h, ?_, ?_, ?_, ?_, ?_, ?_⟩
  · intro hw hh
    have hk0 : 0 < radiiCount w h := by
      rw [Nat.pos_iff_ne_zero]
      intro h0
      have := (radiiCount_lt_iff w h 0).not.mp (by omega)
      have hww : 1 * 1 ≤ w * w := Nat.mul_le_mul hw hw
      have hhh : 1 * 1 ≤ h * h := Nat.mul_le_mul hh hh
      omega
    rw [List.head?_eq_getElem?]
    unfold radiiList
    rw [List.getElem?_map, List.getElem?_range hk0]
    norm_num
  · intro i q1 q2 h1 h2
    unfold radiiList at h1 h2
    rw [List.getElem?_map] at h1 h2
    cases hr1 : (List.range (radiiCount w h))[i]? with
    | none => rw [hr1] at h1; simp at h1
    | some k1 =>
      cases hr2 : (List.range (radiiCount w h))[i + 1]? with
      | none => rw [hr2] at h2; simp at h2
      | some k2 =>
        rw [hr1] at h1; rw [hr2] at h2
        have hi1 : i < radiiCount w h := by
          by_contra hi
          rw [List.getElem?_eq_none (by simpa using Nat.le_of_not_lt hi)] at hr1
          exact Option.noConfusion hr1
        have hi2 : i + 1 < radiiCount w h := by
          by_contra hi
          rw [List.getElem?_eq_none (by simpa using Nat.le_of_not_lt hi)] at hr2
          exact Option.noConfusion hr2
        rw [List.getElem?_range hi1] at hr1
        rw [List.getElem?_range hi2] at hr2
        injection hr1 with hk1
        injection hr2 with hk2
        subst hk1
        subst hk2
        simp only [Option.map_some', Option.some.injEq] at h1 h2
        rw [← h1, ← h2]
        push_cast
        ring
  · intro q
    rw [radiiList_mem_iff]
    constructor
    · rintro ⟨k, rfl, hk⟩
      refine ⟨⟨k, rfl⟩, ?_⟩
      have hx : (0 : ℝ) ≤ ((1 + 5 * (k : ℚ) : ℚ) : ℝ) := by push_cast; positivity
      rw [Real.lt_sqrt hx, pow_two]
      exact_mod_cast hk
    · rintro ⟨⟨k, rfl⟩, hlt⟩
      refine ⟨k, rfl, ?_⟩
      have hx : (0 : ℝ) ≤ ((1 + 5 * (k : ℚ) : ℚ) : ℝ) := by push_cast; positivity
      rw [Real.lt_sqrt hx, pow_two] at hlt
      exact_mod_cast hlt
  · unfold circlesList
    rw [List.map_map]
    exact List.map_id'' (fun x => rfl) (radiiList w h)
  · intro r hr
    exact lookup_map_pair _ (radiiList w h) r hr
  · intro r c hrc
    unfold circlesList at hrc
    rw [List.mem_map] at hrc
    obtain ⟨r2, _, heq⟩ := hrc
    have hc : c = newCircle trig ((w / 2 : ℕ) : ℚ) ((h / 2 : ℕ) : ℚ) r2 512 :=
      (Prod.mk.injEq _ _ _ _ ▸ heq).2.symm
    rw [hc]
    simp [newCircle, circle.positions]

/-- Witness for C7 at a 1×1 canvas, whose radius sequence is `[1]`. -/
theorem C7_witness : (1 : ℕ) ≤ 1 ∧ (radiiList 1 1).head? = some 1 :=
  ⟨le_refl 1,
    (C7_radii_sequence 1 1 (fun _ _ => (1, 0))).2.1 (le_refl 1) (le_refl 1)⟩

/-! ## Precise bounding-box lemmas -/

lemma intStep_mem (s t z : ℤ) (hz : z ∈ intStep s t) : s ≤ z ∧ z < t := by
  unfold intStep at hz
  rw [List.mem_map] at hz
  obtain ⟨k, hk, rfl⟩ := hz
  rw [List.mem_range] at hk
  omega

lemma samplePoints_mem (b : Box) (i j : ℤ) (hij : (i, j) ∈ samplePoints b) :
    ⌊b.Left⌋ ≤ i ∧ i < goTrunc b.Right ∧ goTrunc b.Bottom ≤ j ∧ j < goTrunc b.Top := by
  unfold samplePoints at hij
  rw [List.mem_flatMap] at hij
  obtain ⟨i2, hi2, hj2⟩ := hij
  rw [List.mem_map] at hj2
  obtain ⟨j2, hj2m, heq⟩ := hj2
  cases heq
  obtain ⟨hia, hib⟩ := intStep_mem _ _ _ hi2
  obtain ⟨hja, hjb⟩ := intStep_mem _ _ _ hj2m
  exact ⟨hia, hib, hja, hjb⟩

lemma goTrunc_upper (q : ℚ) (i : ℤ) (h : i < goTrunc q) : (i : ℚ) < q := by
  unfold goTrunc at h
  by_cases hq : q < 0
  · rw [if_pos hq] at h
    have h1 : (i : ℚ) + 1 ≤ ((⌈q⌉ : ℤ) : ℚ) := by exact_mod_cast h
    have h2 : ((⌈q⌉ : ℤ) : ℚ) < q + 1 := Int.ceil_lt_add_one q
    linarith
  · rw [if_neg hq] at h
    have h1 : (i : ℚ) + 1 ≤ ((⌊q⌋ : ℤ) : ℚ) := by exact_mod_cast h
    have h2 : ((⌊q⌋ : ℤ) : ℚ) ≤ q := Int.floor_le q
    linarith

lemma goTrunc_lower (q : ℚ) (j : ℤ) (h : goTrunc q ≤ j) : q - 1 < (j : ℚ) := by
  unfold goTrunc at h
  by_cases hq : q < 0
  · rw [if_pos hq] at h
    have h1 : ((⌈q⌉ : ℤ) : ℚ) ≤ (j : ℚ) := by exact_mod_cast h
    have h2 : q ≤ ((⌈q⌉ : ℤ) : ℚ) := Int.le_ceil q
    linarith
  · rw [if_neg hq] at h
    have h1 : ((⌊q⌋ : ℤ) : ℚ) ≤ (j : ℚ) := by exact_mod_cast h
    have h2 : q < ((⌊q⌋ : ℤ) : ℚ) + 1 := Int.lt_floor_add_one q
    linarith

lemma pixelBox_within (b : Box) (i j : ℤ)
    (hi : ⌊b.Left⌋ ≤ i) (hi2 : i < goTrunc b.Right)
    (hj : goTrunc b.Bottom ≤ j) (hj2 : j < goTrunc b.Top) :
    b.Left - 10 ≤ (pixelBox i j).Left ∧ (pixelBox i j).Right ≤ b.Right + 10 ∧
    b.Bottom - 10 ≤ (pixelBox i j).Bottom ∧ (pixelBox i j).Top ≤ b.Top + 10 := by
  have hL : b.Left - 1 < (i : ℚ) := by
    have h1 : ((⌊b.Left⌋ : ℤ) : ℚ) ≤ (i : ℚ) := by exact_mod_cast hi
    have h2 : b.Left < ((⌊b.Left⌋ : ℤ) : ℚ) + 1 := Int.lt_floor_add_one b.Left
    linarith
  have hR : (i : ℚ) < b.Right := goTrunc_upper _ _ hi2
  have hB : b.Bottom - 1 < (j : ℚ) := goTrunc_lower _ _ hj
  have hT : (j : ℚ) < b.Top := goTrunc_upper _ _ hj2
  simp only [pixelBox]
  push_cast
  refine ⟨by linarith, by linarith, by linarith, by linarith⟩

lemma gPBB_mem_iff (img : Image) (b : Box) (pb : Box) :
    pb ∈ getPreciseBoundingBoxes img b ↔
      ∃ i j : ℤ, (i, j) ∈ samplePoints b ∧ img i j ≠ defColor ∧ pb = pixelBox i j := by
  unfold getPreciseBoundingBoxes
  rw [List.mem_filterMap]
  constructor
  · rintro ⟨⟨i, j⟩, hmem, hsome⟩
    by_cases hne : img i j ≠ defColor
    · rw [if_pos hne] at hsome
      exact ⟨i, j, hmem, hne, (Option.some.injEq _ _ ▸ hsome).symm⟩
    · rw [if_neg hne] at hsome
      exact Option.noConfusion hsome
  · rintro ⟨i, j, hmem, hne, rfl⟩
    exact ⟨(i, j), hmem, by rw [if_pos hne]⟩

lemma gPBB_ne_nil_iff (img : Image) (b : Box) :
    getPreciseBoundingBoxes img b ≠ [] ↔
      ∃ p ∈ samplePoints b, img p.1 p.2 ≠ defColor := by
  constructor
  · intro hne
    cases hg : getPreciseBoundingBoxes img b with
    | nil => exact absurd hg hne
    | cons pb rest =>
      have hpb : pb ∈ getPreciseBoundingBoxes img b := by
        rw [hg]; exact List.mem_cons_self pb rest
      obtain ⟨i, j, hmem, hcol, _⟩ := (gPBB_mem_iff img b pb).mp hpb
      exact ⟨(i, j), hmem, hcol⟩
  · rintro ⟨⟨i, j⟩, hmem, hcol⟩ hnil
    have : pixelBox i j ∈ getPreciseBoundingBoxes img b :=
      (gPBB_mem_iff img b (pixelBox i j)).mpr ⟨i, j, hmem, hcol, rfl⟩
    rw [hnil] at this
    exact absurd this (List.not_mem_nil _)

/-! ## `setFont` and `Place` trace lemmas -/

lemma setFont_none_iff (env : Env) (w : Wordcloud) (size : ℚ) :
    setFont env w size = none ↔
      w.fonts.lookup size = none ∧ env.loadFontFace w.opts.FontFile size = none := by
  unfold setFont
  cases hl : w.fonts.lookup size with
  | some f => simp
  | none =>
    cases hf : env.loadFontFace w.opts.FontFile size with
    | none => simp
    | some f => simp

lemma setFont_some_spec (env : Env) (w : Wordcloud) (size : ℚ) (w2 : Wordcloud)
    (h : setFont env w size = some w2) :
    w2.grid = w.grid ∧ w2.opts = w.opts ∧ w2.img = w.img ∧
    w2.sortedWordList = w.sortedWordList ∧ w2.width = w.width ∧ w2.height = w.height ∧
    w2.curColor = w.curColor ∧
    ∃ f, w2.fonts.lookup size = some f ∧ w2.curFont = f := by
  unfold setFont at h
  cases hl : w.fonts.lookup size with
  | some f =>
    rw [hl] at h
    replace h : some { w with curFont := f } = some w2 := h
    cases h
    exact ⟨rfl, rfl, rfl, rfl, rfl, rfl, rfl, f, hl, rfl⟩
  | none =>
    rw [hl] at h
    cases hf : env.loadFontFace w.opts.FontFile size with
    | none =>
      rw [hf] at h
      exact Option.noConfusion h
    | some f =>
      rw [hf] at h
      replace h : some { w with fonts := (size, f) :: w.fonts, curFont := f } = some w2 := h
      cases h
      exact ⟨rfl, rfl, rfl, rfl, rfl, rfl, rfl, f, by simp [List.lookup], rfl⟩

lemma registerBoxes_projections (env : Env) (w : Wordcloud) (box : Box) (height : ℚ) :
    (registerBoxes env w box height).opts = w.opts ∧
    (registerBoxes env w box height).sortedWordList = w.sortedWordList ∧
    (registerBoxes env w box height).fonts = w.fonts ∧
    (registerBoxes env w box height).curFont = w.curFont := by
  unfold registerBoxes
  split
  · exact ⟨rfl, rfl, rfl, rfl⟩
  · exact ⟨rfl, rfl, rfl, rfl⟩

lemma registerBoxes_grid (env : Env) (w : Wordcloud) (box : Box) (height : ℚ) :
    (¬ height > 40 → (registerBoxes env w box height).grid = w.grid ++ [box]) ∧
    (height > 40 → (registerBoxes env w box height).grid =
      w.grid ++ getPreciseBoundingBoxes w.img box) := by
  unfold registerBoxes
  constructor
  · intro hle
    rw [if_neg hle]
  · intro hgt
    rw [if_pos hgt]

lemma registerBoxes_img (env : Env) (w : Wordcloud) (box : Box) (height : ℚ)
    (hdbg : w.opts.Debug = false) :
    (registerBoxes env w box height).img = w.img := by
  unfold registerBoxes
  split
  · simp [hdbg]
  · rfl

lemma Place_cases (env : Env) (w : Wordcloud) (wc : wordCount) (w2 : Wordcloud) (b : Bool)
    (h : Place env w wc = some (w2, b)) :
    ∃ c0 cs first rest wmid mw mh x y sp img2,
      w.opts.Colors = c0 :: cs ∧
      w.sortedWordList = first :: rest ∧
      setFont env { w with
        curColor := (c0 :: cs).getD (env.randStream w.rngIdx % (c0 :: cs).length) c0,
        rngIdx := w.rngIdx + 1 } (sizeForCount w.opts wc.count first.count) = some wmid ∧
      mw = (env.measureString wmid.curFont wc.word).1 + 5 ∧
      mh = (env.measureString wmid.curFont wc.word).2 + 5 ∧
      env.nextPosF wmid.grid mw mh = (x, y, sp) ∧
      img2 = env.drawStringAnchored wmid.img wmid.curFont wmid.curColor wc.word x y ∧
      ((sp = false ∧ b = false ∧ w2 = wmid) ∨
       (sp = true ∧ b = true ∧
        w2 = registerBoxes env { wmid with img := img2 }
          ⟨y + mh / 2 + (3 / 10 : ℚ) * mh, x - mw / 2, x + mw / 2, max (y - mh / 2) 0⟩
          mh)) := by
  rw [Place] at h
  split at h
  · exact Option.noConfusion h
  · exact Option.noConfusion h
  · rename_i c0 cs first rest hc hs
    simp only [] at h
    split at h
    · exact Option.noConfusion h
    · rename_i wmid hsf
      refine ⟨c0, cs, first, rest, wmid,
        (env.measureString wmid.curFont wc.word).1 + 5,
        (env.measureString wmid.curFont wc.word).2 + 5,
        (env.nextPosF wmid.grid ((env.measureString wmid.curFont wc.word).1 + 5)
          ((env.measureString wmid.curFont wc.word).2 + 5)).1,
        (env.nextPosF wmid.grid ((env.measureString wmid.curFont wc.word).1 + 5)
          ((env.measureString wmid.curFont wc.word).2 + 5)).2.1,
        (env.nextPosF wmid.grid ((env.measureString wmid.curFont wc.word).1 + 5)
          ((env.measureString wmid.curFont wc.word).2 + 5)).2.2,
        env.drawStringAnchored wmid.img wmid.curFont wmid.curColor wc.word
          (env.nextPosF wmid.grid ((env.measureString wmid.curFont wc.word).1 + 5)
            ((env.measureString wmid.curFont wc.word).2 + 5)).1
          (env.nextPosF wmid.grid ((env.measureString wmid.curFont wc.word).1 + 5)
            ((env.measureString wmid.curFont wc.word).2 + 5)).2.1,
        hc, hs, hsf, rfl, rfl, rfl, rfl, ?_⟩
      split at h
      · rename_i hcond
        rw [Option.some.injEq, Prod.mk.injEq] at h
        exact Or.inl ⟨hcond, h.2.symm, h.1.symm⟩
      · rename_i hcond
        have hsp : (env.nextPosF wmid.grid ((env.measureString wmid.curFont wc.word).1 + 5)
            ((env.measureString wmid.curFont wc.word).2 + 5)).2.2 = true := by
          cases hb : (env.nextPosF wmid.grid ((env.measureString wmid.curFont wc.word).1 + 5)
              ((env.measureString wmid.curFont wc.word).2 + 5)).2.2 with
          | false => exact absurd hb hcond
          | true => rfl
        rw [Option.some.injEq, Prod.mk.injEq] at h
        exact Or.inr ⟨hsp, h.2.symm, h.1.symm⟩

lemma Place_preserves (env : Env) (w : Wordcloud) (wc : wordCount) (w2 : Wordcloud) (b : Bool)
    (h : Place env w wc = some (w2, b)) :
    w2.opts = w.opts ∧ w2.sortedWordList = w.sortedWordList := by
  obtain ⟨c0, cs, first, rest, wmid, mw, mh, x, y, sp, img2,
    hc, hs, hsf, hmw, hmh, hnp, himg, hcase⟩ := Place_cases env w wc w2 b h
  obtain ⟨_, hopts, _, hsort, _⟩ := setFont_some_spec _ _ _ _ hsf
  rcases hcase with ⟨_, _, rfl⟩ | ⟨_, _, rfl⟩
  · exact ⟨hopts, hsort⟩
  · obtain ⟨ho, hso, _⟩ := registerBoxes_projections env _ _ mh
    exact ⟨ho.trans hopts, hso.trans hsort⟩

lemma Place_none_iff (env : Env) (w : Wordcloud) (wc : wordCount)
    (first : wordCount) (rest : List wordCount) (c0 : RGBA) (cs : List RGBA)
    (hs : w.sortedWordList = first :: rest) (hc : w.opts.Colors = c0 :: cs) :
    Place env w wc = none ↔
      (w.fonts.lookup (sizeForCount w.opts wc.count first.count) = none ∧
       env.loadFontFace w.opts.FontFile (sizeForCount w.opts wc.count first.count) = none) := by
  constructor
  · intro hnone
    rw [Place] at hnone
    split at hnone
    · rename_i heq
      rw [hc] at heq
      exact absurd heq (List.cons_ne_nil c0 cs)
    · rename_i hemp hov
      rw [hs] at hemp
      exact absurd hemp (List.cons_ne_nil first rest)
    · rename_i c02 cs2 first2 rest2 hc2 hs2
      have hff : first2 = first := by
        rw [hs] at hs2
        exact ((List.cons.injEq _ _ _ _ ▸ hs2).1).symm
      subst hff
      simp only [] at hnone
      split at hnone
      · rename_i hsf
        have hiff := (setFont_none_iff env _ _).mp hsf
        exact ⟨by simpa using hiff.1, by simpa using hiff.2⟩
      · rename_i wmid hsf
        split at hnone
        · exact Option.noConfusion hnone
        · exact Option.noConfusion hnone
  · rintro ⟨hlk, hld⟩
    cases hp : Place env w wc with
    | none => rfl
    | some pr =>
      obtain ⟨c02, cs2, first2, rest2, wmid, mw, mh, x, y, sp, img2,
        hc2, hs2, hsf, _⟩ := Place_cases env w wc pr.1 pr.2 (by rw [hp])
      have hff : first2 = first := by
        rw [hs] at hs2
        exact ((List.cons.injEq _ _ _ _ ▸ hs2).1).symm
      have hnone : setFont env { w with
          curColor := (c02 :: cs2).getD (env.randStream w.rngIdx % (c02 :: cs2).length) c02,
          rngIdx := w.rngIdx + 1 } (sizeForCount w.opts wc.count first2.count) = none := by
        rw [setFont_none_iff, hff]
        exact ⟨by simpa using hlk, by simpa using hld⟩
      rw [hnone] at hsf
      exact Option.noConfusion hsf

lemma DrawGo_cons_some (env : Env) (wc : wordCount) (rest : List wordCount)
    (misses : ℕ) (w w2 : Wordcloud) (b : Bool) (hp : Place env w wc = some (w2, b)) :
    DrawGo env (wc :: rest) misses w =
      if b = true then DrawGo env rest 0 w2
      else if misses + 1 > 10 then some w2.img
      else DrawGo env rest (misses + 1) w2 := by
  rw [DrawGo, hp]

lemma DrawGo_cons_none (env : Env) (wc : wordCount) (rest : List wordCount)
    (misses : ℕ) (w : Wordcloud) (hp : Place env w wc = none) :
    DrawGo env (wc :: rest) misses w = none := by
  rw [DrawGo, hp]

lemma drawGo_allFail (env : Env) :
    ∀ (ws : List wordCount) (misses : ℕ) (w w2 : Wordcloud) (rest : List wordCount),
      placeAllFail env w ws = some w2 → misses + ws.length = 11 → misses ≤ 10 →
      DrawGo env (ws ++ rest) misses w = some w2.img := by
  intro ws
  induction ws with
  | nil =>
    intro misses w w2 rest hpf hlen hm
    simp at hlen
    omega
  | cons wc ws ih =>
    intro misses w w2 rest hpf hlen hm
    rw [placeAllFail] at hpf
    cases hp : Place env w wc with
    | none =>
      rw [hp] at hpf
      exact Option.noConfusion hpf
    | some pr =>
      rw [hp] at hpf
      obtain ⟨w3, bb⟩ := pr
      cases bb with
      | true =>
        replace hpf : (none : Option Wordcloud) = some w2 := hpf
        exact Option.noConfusion hpf
      | false =>
        replace hpf : placeAllFail env w3 ws = some w2 := hpf
        rw [List.cons_append, DrawGo_cons_some env wc (ws ++ rest) misses w w3 false hp]
        cases ws with
        | nil =>
          replace hpf : some w3 = some w2 := hpf
          rw [Option.some.injEq] at hpf
          subst hpf
          have hm10 : misses = 10 := by simp at hlen; omega
          subst hm10
          rw [if_neg Bool.false_ne_true, if_pos (by omega)]
        | cons wc2 ws2 =>
          have hlen2 : (misses + 1) + (wc2 :: ws2).length = 11 := by
            simp at hlen ⊢
            omega
          have hm2 : misses + 1 ≤ 10 := by
            simp at hlen
            omega
          rw [if_neg Bool.false_ne_true, if_neg (by omega)]
          exact ih (misses + 1) w3 w2 rest hpf hlen2 hm2

/-- C3: the `Draw` loop resets the consecutive-miss counter to zero on a
successful placement (conjunct 1), increments it on a failed placement
(conjunct 2), and as soon as the counter would exceed 10 — that is, after a
chain of 11 consecutive failed placements — it stops, ignores every
remaining word, and returns the canvas as-is as a normal (`some`) result
(conjunct 3, in which the remaining words `rest` are arbitrary and do not
influence the result). -/
theorem C3_consecutive_miss_cap (env : Env) :
    (∀ w wc w2 rest misses, Place env w wc = some (w2, true) →
      DrawGo env (wc :: rest) misses w = DrawGo env rest 0 w2) ∧
    (∀ w wc w2 rest misses, Place env w wc = some (w2, false) → misses < 10 →
      DrawGo env (wc :: rest) misses w = DrawGo env rest (misses + 1) w2) ∧
    (∀ ws rest w w2, placeAllFail env w ws = some w2 → ws.length = 11 →
      DrawGo env (ws ++ rest) 0 w = some w2.img) := by
  refine ⟨?_, ?_, ?_⟩
  · intro w wc w2 rest misses h
    rw [DrawGo_cons_some env wc rest misses w w2 true h]
    rw [if_pos rfl]
  · intro w wc w2 rest misses h hm
    rw [DrawGo_cons_some env wc rest misses w w2 false h]
    rw [if_neg Bool.false_ne_true, if_neg (by omega)]
  · intro ws rest w w2 hpf hlen
    exact drawGo_allFail env ws 0 w w2 rest hpf (by omega) (by omega)

/-- Witness for C3: eleven consecutive failures followed by one more word;
the run returns the canvas after the eleventh failure. -/
theorem C3_witness :
    ∃ w2, placeAllFail envNoSpace (cloudW words11) words11 = some w2 ∧
      DrawGo envNoSpace (words11 ++ [⟨"b", 1⟩]) 0 (cloudW words11) = some w2.img := by
  have hsome : (placeAllFail envNoSpace (cloudW words11) words11).isSome = true := by
    norm_num [placeAllFail, Place, setFont, sizeForCount, registerBoxes, cloudW, envNoSpace,
      defaultOptions, words11, List.lookup]
  obtain ⟨w2, hw2⟩ := Option.isSome_iff_exists.mp hsome
  exact ⟨w2, hw2,
    (C3_consecutive_miss_cap envNoSpace).2.2 words11 [⟨"b", 1⟩] (cloudW words11) w2 hw2
      (by norm_num [words11])⟩

/-- C4: occupancy registration.  Conjunct 1: every precise box lies within
the original rectangle padded by 10 px (the 5-px stride plus the extra 5-px
padding).  Conjunct 2: at least one precise box is produced exactly when
some stride-5 sample of the rendered surface differs from the background
comparison color.  Conjunct 3: a successful placement registers either
exactly the one full rectangle (height ≤ 40) or the precise boxes sampled
from the rendered surface (height > 40). -/
theorem C4_registration_dichotomy :
    (∀ (img : Image) (b : Box), ∀ pb ∈ getPreciseBoundingBoxes img b,
      b.Left - 10 ≤ pb.Left ∧ pb.Right ≤ b.Right + 10 ∧
      b.Bottom - 10 ≤ pb.Bottom ∧ pb.Top ≤ b.Top + 10) ∧
    (∀ (img : Image) (b : Box), getPreciseBoundingBoxes img b ≠ [] ↔
      ∃ p ∈ samplePoints b, img p.1 p.2 ≠ defColor) ∧
    (∀ env w wc w2, w.opts.Debug = false → Place env w wc = some (w2, true) →
      ∃ x y width height,
        (height ≤ 40 → w2.grid = w.grid ++
          [⟨y + height / 2 + (3 / 10 : ℚ) * height, x - width / 2, x + width / 2,
            max (y - height / 2) 0⟩]) ∧
        (height > 40 → w2.grid = w.grid ++ getPreciseBoundingBoxes w2.img
          ⟨y + height / 2 + (3 / 10 : ℚ) * height, x - width / 2, x + width / 2,
            max (y - height / 2) 0⟩)) := by
  refine ⟨?_, ?_, ?_⟩
  · intro img b pb hpb
    obtain ⟨i, j, hmem, _, rfl⟩ := (gPBB_mem_iff img b pb).mp hpb
    obtain ⟨h1, h2, h3, h4⟩ := samplePoints_mem b i j hmem
    exact pixelBox_within b i j h1 h2 h3 h4
  · intro img b
    exact gPBB_ne_nil_iff img b
  · intro env w wc w2 hdbg h
    obtain ⟨c0, cs, first, rest, wmid, mw, mh, x, y, sp, img2,
      hc, hs, hsf, hmw, hmh, hnp, himg, hcase⟩ := Place_cases env w wc w2 true h
    rcases hcase with ⟨_, hb, _⟩ | ⟨hsp, _, hw2⟩
    · exact absurd hb (fun hx => Bool.noConfusion hx)
    · obtain ⟨hgrid, hopts, himgP, _⟩ := setFont_some_spec _ _ _ _ hsf
      have hwmidgrid : wmid.grid = w.grid := hgrid
      have hdbg2 : ({ wmid with img := img2 } : Wordcloud).opts.Debug = false := by
        show wmid.opts.Debug = false
        rw [hopts]
        exact hdbg
      refine ⟨x, y, mw, mh, ?_, ?_⟩
      · intro hle
        rw [hw2]
        rw [(registerBoxes_grid env { wmid with img := img2 } _ mh).1 (not_lt.mpr hle)]
        have hg : ({ wmid with img := img2 } : Wordcloud).grid = w.grid := hwmidgrid
        rw [hg]
      · intro hgt
        rw [hw2]
        rw [registerBoxes_img env { wmid with img := img2 } _ mh hdbg2]
        rw [(registerBoxes_grid env { wmid with img := img2 } _ mh).2 hgt]
        have hg : ({ wmid with img := img2 } : Wordcloud).grid = w.grid := hwmidgrid
        rw [hg]

/-- Witness for C4: a concrete successful placement (measured extent 10×10,
so padded height 15 ≤ 40) registers one box. -/
theorem C4_witness :
    ∃ w2, Place envSpace (cloudW [⟨"a", 1⟩]) ⟨"a", 1⟩ = some (w2, true) ∧
      ∃ x y width height,
        (height ≤ 40 → w2.grid = (cloudW [⟨"a", 1⟩]).grid ++
          [⟨y + height / 2 + (3 / 10 : ℚ) * height, x - width / 2, x + width / 2,
            max (y - height / 2) 0⟩]) ∧
        (height > 40 → w2.grid = (cloudW [⟨"a", 1⟩]).grid ++ getPreciseBoundingBoxes w2.img
          ⟨y + height / 2 + (3 / 10 : ℚ) * height, x - width / 2, x + width / 2,
            max (y - height / 2) 0⟩) := by
  have hsnd : (Place envSpace (cloudW [⟨"a", 1⟩]) ⟨"a", 1⟩).map Prod.snd = some true := by
    norm_num [Place, setFont, sizeForCount, registerBoxes, cloudW, envSpace, envNoSpace,
      defaultOptions, List.lookup, getPreciseBoundingBoxes]
  cases hp : Place envSpace (cloudW [⟨"a", 1⟩]) ⟨"a", 1⟩ with
  | none =>
    rw [hp] at hsnd
    exact Option.noConfusion hsnd
  | some pr =>
    rw [hp] at hsnd
    rw [Option.map_some', Option.some.injEq] at hsnd
    have hpr : Place envSpace (cloudW [⟨"a", 1⟩]) ⟨"a", 1⟩ = some (pr.1, true) := by
      rw [hp, ← hsnd, Prod.mk.eta]
    exact ⟨pr.1, by rw [← hsnd, Prod.mk.eta],
      C4_registration_dichotomy.2.2 envSpace (cloudW [⟨"a", 1⟩]) ⟨"a", 1⟩ pr.1 rfl hpr⟩

/-- C5 counterexample: with the background color configured to opaque black,
every sampled pixel of an all-black region equals the configured background,
yet the code still records boxes for them (it compares against the
hard-coded white `defColor`, not against the configuration).  This refutes
the claim that a box is recorded only for pixels differing from the
configured background color. -/
theorem C5_counterexample :
    ¬ (∀ pb ∈ getPreciseBoundingBoxes (fun _ _ => (⟨0, 0, 0, 0xff⟩ : RGBA)) ⟨10, 0, 10, 0⟩,
        ∃ p ∈ samplePoints (⟨10, 0, 10, 0⟩ : Box),
          (fun _ _ => (⟨0, 0, 0, 0xff⟩ : RGBA)) p.1 p.2 ≠
            ({ defaultOptions with BackgroundColor := ⟨0, 0, 0, 0xff⟩ } : Options).BackgroundColor ∧
          pb = pixelBox p.1 p.2) := by
  intro hcl
  have hsample : ((0 : ℤ), (0 : ℤ)) ∈ samplePoints (⟨10, 0, 10, 0⟩ : Box) := by
    decide
  have hmem : pixelBox 0 0 ∈
      getPreciseBoundingBoxes (fun _ _ => (⟨0, 0, 0, 0xff⟩ : RGBA)) ⟨10, 0, 10, 0⟩ :=
    (gPBB_mem_iff _ _ _).mpr ⟨0, 0, hsample, by decide, rfl⟩
  obtain ⟨p, _, hne, _⟩ := hcl (pixelBox 0 0) hmem
  exact hne rfl

/-- C5 amended: a small occupied box is recorded for a sampled pixel iff the
pixel's color differs from the fixed color `defColor` — opaque white, which
equals the default (not the configured) background color. -/
theorem C5_amended_fixed_white (img : Image) (b : Box) (pb : Box) :
    defColor = defaultOptions.BackgroundColor ∧
    (pb ∈ getPreciseBoundingBoxes img b ↔
      ∃ i j : ℤ, (i, j) ∈ samplePoints b ∧ img i j ≠ defColor ∧ pb = pixelBox i j) :=
  ⟨rfl, gPBB_mem_iff img b pb⟩

/-- C6 counterexample: with min 10 / max 100 and a word at half the maximum
count, the code computes `100 * (1/2) = 50`, while linear interpolation
between the configured minimum and maximum (clamped to the minimum) gives
`10 + (100 - 10) * (1/2) = 55`. -/
theorem C6_counterexample :
    sizeForCount { defaultOptions with FontMinSize := 10, FontMaxSize := 100 } 1 2 = 50 ∧
    sizeByLerp { defaultOptions with FontMinSize := 10, FontMaxSize := 100 } 1 2 = 55 ∧
    sizeForCount { defaultOptions with FontMinSize := 10, FontMaxSize := 100 } 1 2 ≠
      sizeByLerp { defaultOptions with FontMinSize := 10, FontMaxSize := 100 } 1 2 := by
  refine ⟨?_, ?_, ?_⟩ <;> norm_num [sizeForCount, sizeByLerp, defaultOptions]

/-- C6 amended: the font size used for a word is the configured maximum font
size scaled by the word's count relative to the list's maximum count, clamped
below to the configured minimum font size (conjunct 1); and `Place` loads and
makes current exactly the face for that size (conjunct 2). -/
theorem C6_amended_size_formula :
    (∀ (opts : Options) (c M : ℤ), sizeForCount opts c M =
      max ((opts.FontMinSize : ℚ)) ((opts.FontMaxSize : ℚ) * ((c : ℚ) / (M : ℚ)))) ∧
    (∀ env w wc w2 b, Place env w wc = some (w2, b) →
      ∃ first rest f, w.sortedWordList = first :: rest ∧
        w2.fonts.lookup (sizeForCount w.opts wc.count first.count) = some f ∧
        w2.curFont = f) := by
  constructor
  · intro opts c M
    unfold sizeForCount
    by_cases hlt : (opts.FontMaxSize : ℚ) * ((c : ℚ) / (M : ℚ)) < (opts.FontMinSize : ℚ)
    · rw [if_pos hlt, max_eq_left (le_of_lt hlt)]
    · rw [if_neg hlt, max_eq_right (not_lt.mp hlt)]
  · intro env w wc w2 b h
    obtain ⟨c0, cs, first, rest, wmid, mw, mh, x, y, sp, img2,
      hc, hs, hsf, hmw, hmh, hnp, himg, hcase⟩ := Place_cases env w wc w2 b h
    obtain ⟨_, _, _, _, _, _, _, f, hlk, hcf⟩ := setFont_some_spec _ _ _ _ hsf
    refine ⟨first, rest, f, hs, ?_, ?_⟩
    · rcases hcase with ⟨_, _, rfl⟩ | ⟨_, _, rfl⟩
      · exact hlk
      · have hfonts : (registerBoxes env { wmid with img := img2 }
            ⟨y + mh / 2 + (3 / 10 : ℚ) * mh, x - mw / 2, x + mw / 2, max (y - mh / 2) 0⟩
            mh).fonts = wmid.fonts :=
          (registerBoxes_projections env _ _ mh).2.2.1
        rw [hfonts]
        exact hlk
    · rcases hcase with ⟨_, _, rfl⟩ | ⟨_, _, rfl⟩
      · exact hcf
      · have hcur : (registerBoxes env { wmid with img := img2 }
            ⟨y + mh / 2 + (3 / 10 : ℚ) * mh, x - mw / 2, x + mw / 2, max (y - mh / 2) 0⟩
            mh).curFont = wmid.curFont :=
          (registerBoxes_projections env _ _ mh).2.2.2
        rw [hcur]
        exact hcf

/-- Witness for C6 at a concrete placement attempt. -/
theorem C6_witness :
    ∃ w2 b first rest f,
      Place envNoSpace (cloudW [⟨"a", 1⟩]) ⟨"a", 1⟩ = some (w2, b) ∧
      (cloudW [⟨"a", 1⟩]).sortedWordList = first :: rest ∧
      w2.fonts.lookup (sizeForCount (cloudW [⟨"a", 1⟩]).opts (1 : ℤ) first.count) = some f ∧
      w2.curFont = f := by
  have hsome : (Place envNoSpace (cloudW [⟨"a", 1⟩]) ⟨"a", 1⟩).isSome = true := by
    norm_num [Place, setFont, sizeForCount, cloudW, envNoSpace, defaultOptions, List.lookup]
  obtain ⟨pr, hp⟩ := Option.isSome_iff_exists.mp hsome
  obtain ⟨first, rest, f, hfr, hlk, hcf⟩ :=
    C6_amended_size_formula.2 envNoSpace (cloudW [⟨"a", 1⟩]) ⟨"a", 1⟩ pr.1 pr.2
      (by rw [hp])
  exact ⟨pr.1, pr.2, first, rest, f, by rw [hp], hfr, hlk, hcf⟩

lemma drawGo_total (env : Env) :
    ∀ (l : List wordCount) (misses : ℕ) (w : Wordcloud),
      w.opts.Colors ≠ [] →
      (∀ s, (env.loadFontFace w.opts.FontFile s).isSome = true) →
      (l ≠ [] → w.sortedWordList ≠ []) →
      (DrawGo env l misses w).isSome = true := by
  intro l
  induction l with
  | nil =>
    intro misses w _ _ _
    rw [DrawGo]
    rfl
  | cons wc rest ih =>
    intro misses w hcol hfont hsort
    have hsortne : w.sortedWordList ≠ [] := hsort (List.cons_ne_nil wc rest)
    obtain ⟨first, rest2, hs⟩ := List.exists_cons_of_ne_nil hsortne
    obtain ⟨c0, cs, hc⟩ := List.exists_cons_of_ne_nil hcol
    cases hp : Place env w wc with
    | none =>
      obtain ⟨_, hld⟩ := (Place_none_iff env w wc first rest2 c0 cs hs hc).mp hp
      have := hfont (sizeForCount w.opts wc.count first.count)
      rw [hld] at this
      exact Bool.noConfusion this
    | some pr =>
      obtain ⟨w2, b⟩ := pr
      obtain ⟨hopts, hsort2⟩ := Place_preserves env w wc w2 b hp
      rw [DrawGo_cons_some env wc rest misses w w2 b hp]
      cases b with
      | true =>
        rw [if_pos rfl]
        refine ih 0 w2 ?_ ?_ ?_
        · rw [hopts]; exact hcol
        · intro s; rw [hopts]; exact hfont s
        · intro _; rw [hsort2]; exact hsortne
      | false =>
        rw [if_neg Bool.false_ne_true]
        by_cases hm : misses + 1 > 10
        · rw [if_pos hm]
          rfl
        · rw [if_neg hm]
          refine ih (misses + 1) w2 ?_ ?_ ?_
          · rw [hopts]; exact hcol
          · intro s; rw [hopts]; exact hfont s
          · intro _; rw [hsort2]; exact hsortne

/-- C9: a font-load failure for the requested size is the only abort path.
Conjunct 1: `Place` panics (returns `none`) exactly when the computed size
is not cached and `gg.LoadFontFace` fails for it — it neither skips the word
nor reports `success = false` in that case.  Conjunct 2: the panic aborts
the whole run immediately (`Draw` propagates it).  Conjunct 3: when font
loading always succeeds (and the color palette is non-empty, so the color
draw cannot panic either), the run always completes normally with a canvas,
whatever the placement outcomes. -/
theorem C9_font_load_only_abort :
    (∀ env w wc first rest c0 cs,
      w.sortedWordList = first :: rest → w.opts.Colors = c0 :: cs →
      (Place env w wc = none ↔
        (w.fonts.lookup (sizeForCount w.opts wc.count first.count) = none ∧
         env.loadFontFace w.opts.FontFile (sizeForCount w.opts wc.count first.count) = none))) ∧
    (∀ env w wc rest misses, Place env w wc = none →
      DrawGo env (wc :: rest) misses w = none) ∧
    (∀ env w, w.opts.Colors ≠ [] →
      (∀ s, (env.loadFontFace w.opts.FontFile s).isSome = true) →
      (Draw env w).isSome = true) := by
  refine ⟨?_, ?_, ?_⟩
  · intro env w wc first rest c0 cs hs hc
    exact Place_none_iff env w wc first rest c0 cs hs hc
  · intro env w wc rest misses hp
    exact DrawGo_cons_none env wc rest misses w hp
  · intro env w hcol hfont
    exact drawGo_total env w.sortedWordList 0 w hcol hfont (fun h => h)

/-- Witness for C9: with a failing font loader and an empty cache, a
placement attempt panics. -/
theorem C9_witness :
    Place envNoFont (cloudW [⟨"a", 1⟩]) ⟨"a", 1⟩ = none :=
  ((C9_font_load_only_abort).1 envNoFont (cloudW [⟨"a", 1⟩]) ⟨"a", 1⟩ ⟨"a", 1⟩ []
      ⟨0, 0, 0, 0⟩ [] rfl rfl).mpr ⟨rfl, rfl⟩

/-- C10: for a `Wordcloud` built from an empty frequency map, `Draw`
terminates normally with the background-only canvas (here with debug mode
off, the only mode in which the constructor paints nothing but background).
The drawing environment `envB` used by `Draw` is universally quantified and
independent of the constructor's `envA`: the loop body — and with it the
access to the first sorted word and the division by the maximum count inside
`Place` — is never executed, whatever those oracles do. -/
theorem C10_empty_wordlist_draw (envA envB : Env) (opts : Options)
    (hdbg : opts.Debug = false) :
    (NewWordcloud envA [] opts).sortedWordList = [] ∧
    Draw envB (NewWordcloud envA [] opts) = some (fun _ _ => opts.BackgroundColor) := by
  constructor
  · rfl
  · show DrawGo envB (NewWordcloud envA [] opts).sortedWordList 0 (NewWordcloud envA [] opts) =
      some (fun _ _ => opts.BackgroundColor)
    have hnil : (NewWordcloud envA [] opts).sortedWordList = [] := rfl
    rw [hnil, DrawGo]
    have himg : (NewWordcloud envA [] opts).img = fun _ _ => opts.BackgroundColor := by
      unfold NewWordcloud
      simp only [hdbg]
      rfl
    rw [himg]

/-- Witness for C10 at the default options. -/
theorem C10_witness :
    Draw envNoSpace (NewWordcloud envNoSpace [] defaultOptions) =
      some (fun _ _ => defaultOptions.BackgroundColor) :=
  (C10_empty_wordlist_draw envNoSpace envNoSpace defaultOptions rfl).2

end Wordclouds
